import Mathlib

/-!
Shallow embedding of `ctutil/loginfo.go` from the
certificate-transparency-go-p192 repository.

The file models the per-log verification state (`LogInfo`), its cached
signed tree head, the four verification operations
(`VerifySCTSignature`, `VerifyInclusionLatest`, `VerifyInclusion`,
`VerifyInclusionAt`) and the registry constructors
(`NewLogInfo`, `NewLogInfoOverDNS`, `logInfoByKeyHash`, ...).

External collaborators (the HTTP/DNS transport client, the leaf hashing
function `ct.LeafHashForLeaf`, the Merkle proof verifier
`merkle.LogVerifier.VerifyInclusionProof`, the signature verifier, the
x509 public key parser and the SHA-256 digest) are modelled as opaque
function parameters: the operations here are exactly the orchestration
code of `loginfo.go`, parameterised by those collaborators.

Errors are modelled structurally (inductive `CTErr` carrying the
arguments of the corresponding `fmt.Errorf` call) together with
`CTErr.message`, which renders the exact format string used by the Go
code, so that claims about error contents ("carries the log's
description") can be stated as substring facts about the rendered
message.

Each operation also returns the list of external calls it performed
(`Event`), in order, so that ordering and "no step after a failing one"
claims are statable, and the number of tree-head fetches is countable.
-/

/-- Entry inside a Merkle tree leaf, carrying the timestamp that the
verification operations overwrite (`ct.TimestampedEntry`). Fields other
than the timestamp are opaque payload data. -/
structure TimestampedEntry where
  timestamp : Nat
  entryType : Nat
  entryData : List Nat
  extensions : List Nat
  deriving DecidableEq

/-- Canonical representation of a log entry (`ct.MerkleTreeLeaf`).
Modelled from the spec: the declaration of `ct.MerkleTreeLeaf` is not
among the repository files given here, so whether its timestamped entry
is a shared reference or a value is taken from the spec, which states
the timestamp adjustment constructs "a local copy of the entry with the
timestamp field overridden, never mutating a value the caller still
holds a reference to"; accordingly the entry is embedded by value. (The
heap-level wrappers `VerifySCTSignatureH` / `VerifyInclusionAtH` below
make the caller's view explicit.) -/
structure MerkleTreeLeaf where
  version : Nat
  leafType : Nat
  timestampedEntry : TimestampedEntry
  deriving DecidableEq

/-- SCT (`ct.SignedCertificateTimestamp`): only the timestamp is read by
this code; the rest is opaque. -/
structure SignedCertificateTimestamp where
  sctVersion : Nat
  logID : List Nat
  timestamp : Nat
  extensions : List Nat
  signature : List Nat
  deriving DecidableEq

/-- Wrapper passed to the signature verifier (`ct.LogEntry{Leaf: leaf}`). -/
structure LogEntry where
  leaf : MerkleTreeLeaf
  deriving DecidableEq

/-- Signed tree head (`ct.SignedTreeHead`): tree size, root hash,
timestamp. -/
structure SignedTreeHead where
  version : Nat
  treeSize : Nat
  timestamp : Nat
  sha256RootHash : List Nat
  deriving DecidableEq

/-- Response of the transport's `GetProofByHash` call: the log-reported
leaf index (an int64) and the audit path. -/
structure GetProofByHashResponse where
  leafIndex : Int
  auditPath : List (List Nat)
  deriving DecidableEq

/-- Transport capability (`client.CheckLogClient`): fetch the current
tree head, fetch an inclusion proof by leaf hash and tree size. The
context argument of the Go methods is absorbed into the modelled result
(a cancelled or failed call is an `Except.error`). -/
structure CheckLogClient where
  getSTH : Except String SignedTreeHead
  getProofByHash : List Nat → Nat → Except String GetProofByHashResponse

/-- Package-level external collaborators used by `VerifyInclusionAt`:
`ct.LeafHashForLeaf` and
`merkle.NewLogVerifier(rfc6962.DefaultHasher).VerifyInclusionProof`. -/
structure Externals where
  leafHashForLeaf : MerkleTreeLeaf → Except String (List Nat)
  verifyInclusionProof : Int → Int → List (List Nat) → List Nat → List Nat → Except String Unit

/-- Per-log verification state (`ctutil.LogInfo`). The `lastSTH` field is
the mutable cached tree head; the RWMutex of the Go struct serialises
access to it and is not itself part of this sequential model. -/
structure LogInfo where
  description : String
  client : CheckLogClient
  mmd : Nat
  verifier : SignedCertificateTimestamp → LogEntry → Except String Unit
  publicKey : List Nat
  lastSTH : Option SignedTreeHead

/-- Errors produced by the verification operations, one constructor per
`fmt.Errorf` site in `loginfo.go`, carrying that site's arguments. -/
inductive CTErr where
  | getSTHFailed (description : String) (cause : String)
  | sctSigFailed (description : String) (cause : String)
  | leafHashFailed (cause : String)
  | getProofFailed (treeSize : Nat) (cause : String)
  | proofVerifyFailed (treeSize : Nat) (cause : String)
  deriving DecidableEq

/-- The exact error message each `fmt.Errorf` site of the verification
operations renders (`%q` renders with surrounding double quotes, `%d` in
decimal, `%v` as the cause's text). -/
def CTErr.message : CTErr → String
  | .getSTHFailed d c => "failed to get current STH for \"" ++ d ++ "\" log: " ++ c
  | .sctSigFailed d c => "failed to verify SCT signature from log \"" ++ d ++ "\": " ++ c
  | .leafHashFailed c => "failed to create leaf hash: " ++ c
  | .getProofFailed n c => "failed to GetProofByHash(sct,size=" ++ toString n ++ "): " ++ c
  | .proofVerifyFailed n c => "failed to verify inclusion proof at size " ++ toString n ++ ": " ++ c

/-- An error message mentions a log's description when the description
occurs verbatim inside it. -/
abbrev mentionsLog (description msg : String) : Prop :=
  List.IsInfix description.data msg.data

/-- External calls an operation performs, in order. -/
inductive Event where
  | getSTH
  | setSTH (sth : SignedTreeHead)
  | leafHash (leaf : MerkleTreeLeaf)
  | getProofByHash (leafHash : List Nat) (treeSize : Nat)
  | verifyProof (leafIndex : Int) (treeSize : Int) (auditPath : List (List Nat)) (rootHash : List Nat) (leafHash : List Nat)
  deriving DecidableEq

/-- Whether an event is a tree-head fetch from the transport. -/
def Event.isGetSTH : Event → Bool
  | .getSTH => true
  | _ => false

/-- Result of one verification operation: the returned `(int64, error)`
pair, the cache contents after the call, and the trace of external
calls. -/
structure VerifyOutcome where
  index : Int
  err : Option CTErr
  lastSTH : Option SignedTreeHead
  events : List Event
  deriving DecidableEq

/-- Number of transport tree-head fetches the operation performed. -/
def VerifyOutcome.sthFetches (o : VerifyOutcome) : Nat :=
  o.events.countP Event.isGetSTH

/-- Go's `int64(treeSize)` conversion of a uint64 value. -/
def int64ofUint64 (n : Nat) : Int :=
  if n % 2 ^ 64 < 2 ^ 63 then ((n % 2 ^ 64 : Nat) : Int) else ((n % 2 ^ 64 : Nat) : Int) - 2 ^ 64

/-- The timestamp overwrite `leaf.TimestampedEntry.Timestamp = ts`,
performed on the operation's local leaf value. -/
def setLeafTimestamp (leaf : MerkleTreeLeaf) (ts : Nat) : MerkleTreeLeaf :=
  { leaf with timestampedEntry := { leaf.timestampedEntry with timestamp := ts } }

/-- `LogInfo.LastSTH`: read the cached tree head. -/
def LogInfo.LastSTH (li : LogInfo) : Option SignedTreeHead :=
  li.lastSTH

/-- `LogInfo.SetSTH`: unconditionally replace the cached tree head. -/
def LogInfo.SetSTH (li : LogInfo) (sth : Option SignedTreeHead) : LogInfo :=
  { li with lastSTH := sth }

/-- `LogInfo.VerifySCTSignature`: overwrite the local leaf's timestamp
with the SCT's, then delegate to the signature verifier, wrapping a
failure with the log's description. -/
def LogInfo.VerifySCTSignature (li : LogInfo) (sct : SignedCertificateTimestamp) (leaf : MerkleTreeLeaf) : Option CTErr :=
  let leaf' := setLeafTimestamp leaf sct.timestamp
  match li.verifier sct { leaf := leaf' } with
  | .error e => some (.sctSigFailed li.description e)
  | .ok _ => none

/-- `LogInfo.VerifyInclusionAt`: overwrite the local leaf's timestamp,
derive the leaf hash, fetch an inclusion proof for (leafHash, treeSize),
verify it against the supplied root hash, and return the log-reported
leaf index. The cache is not touched. -/
def LogInfo.VerifyInclusionAt (li : LogInfo) (ext : Externals) (leaf : MerkleTreeLeaf) (timestamp treeSize : Nat) (rootHash : List Nat) : VerifyOutcome :=
  let leaf' := setLeafTimestamp leaf timestamp
  match ext.leafHashForLeaf leaf' with
  | .error e => ⟨-1, some (.leafHashFailed e), li.lastSTH, [.leafHash leaf']⟩
  | .ok lh =>
    match li.client.getProofByHash lh treeSize with
    | .error e => ⟨-1, some (.getProofFailed treeSize e), li.lastSTH,
        [.leafHash leaf', .getProofByHash lh treeSize]⟩
    | .ok rsp =>
      match ext.verifyInclusionProof rsp.leafIndex (int64ofUint64 treeSize) rsp.auditPath rootHash lh with
      | .error e => ⟨-1, some (.proofVerifyFailed treeSize e), li.lastSTH,
          [.leafHash leaf', .getProofByHash lh treeSize,
           .verifyProof rsp.leafIndex (int64ofUint64 treeSize) rsp.auditPath rootHash lh]⟩
      | .ok _ => ⟨rsp.leafIndex, none, li.lastSTH,
          [.leafHash leaf', .getProofByHash lh treeSize,
           .verifyProof rsp.leafIndex (int64ofUint64 treeSize) rsp.auditPath rootHash lh]⟩

/-- `LogInfo.VerifyInclusionLatest`: use the cached tree head if
present; otherwise fetch one, cache it on success, and delegate to
`VerifyInclusionAt` with its tree size and root hash. -/
def LogInfo.VerifyInclusionLatest (li : LogInfo) (ext : Externals) (leaf : MerkleTreeLeaf) (timestamp : Nat) : VerifyOutcome :=
  match li.LastSTH with
  | some sth => li.VerifyInclusionAt ext leaf timestamp sth.treeSize sth.sha256RootHash
  | none =>
    match li.client.getSTH with
    | .error e => ⟨-1, some (.getSTHFailed li.description e), li.lastSTH, [.getSTH]⟩
    | .ok sth =>
      let li' := li.SetSTH (some sth)
      let out := li'.VerifyInclusionAt ext leaf timestamp sth.treeSize sth.sha256RootHash
      { out with events := .getSTH :: .setSTH sth :: out.events }

/-- `LogInfo.VerifyInclusion`: always fetch a fresh tree head, cache it
unconditionally on success, and delegate to `VerifyInclusionAt`. -/
def LogInfo.VerifyInclusion (li : LogInfo) (ext : Externals) (leaf : MerkleTreeLeaf) (timestamp : Nat) : VerifyOutcome :=
  match li.client.getSTH with
  | .error e => ⟨-1, some (.getSTHFailed li.description e), li.lastSTH, [.getSTH]⟩
  | .ok sth =>
    let li' := li.SetSTH (some sth)
    let out := li'.VerifyInclusionAt ext leaf timestamp sth.treeSize sth.sha256RootHash
    { out with events := .getSTH :: .setSTH sth :: out.events }

/-- The log-state a caller holds after a call, when nothing else touched
the cache in between: same log, cache as the call left it. -/
def afterCall (li : LogInfo) (o : VerifyOutcome) : LogInfo :=
  { li with lastSTH := o.lastSTH }

/-- The success case: the returned index is the leaf index of a
successful inclusion-proof response the operation actually requested
from the transport. -/
def reportsTransportIndex (li : LogInfo) (o : VerifyOutcome) : Prop :=
  ∃ lh n rsp, Event.getProofByHash lh n ∈ o.events ∧
    li.client.getProofByHash lh n = .ok rsp ∧ o.index = rsp.leafIndex

/-- A log-list entry (`loglist.Log`): the fields `loginfo.go` reads. -/
structure Log where
  description : String
  key : List Nat
  url : String
  dnsAPIEndpoint : String
  maximumMergeDelay : Nat

/-- Client construction options (`jsonclient.Options`). -/
structure JsonOptions where
  publicKeyDER : List Nat
  userAgent : String

/-- Opaque parsed public key (`x509.ParsePKIXPublicKey`'s result). -/
structure PublicKey where
  raw : List Nat

/-- External collaborators of the registry constructors: the HTTP and
DNS client factories, the x509 public key parser, and the signature
verifier constructor. -/
structure CtorExt where
  clientNew : String → Unit → JsonOptions → Except String CheckLogClient
  dnsClientNew : String → JsonOptions → Except String CheckLogClient
  parsePKIXPublicKey : List Nat → Except String PublicKey
  newSignatureVerifier : PublicKey → Except String (SignedCertificateTimestamp → LogEntry → Except String Unit)

/-- `ctutil.newLogInfo`: parse the log's public key, build a signature
verifier, and assemble the `LogInfo`; the maximum merge delay is scaled
from seconds to `time.Duration` nanoseconds. -/
def newLogInfo (cx : CtorExt) (log : Log) (lc : CheckLogClient) : Except String LogInfo :=
  match cx.parsePKIXPublicKey log.key with
  | .error e => .error ("failed to parse public key data for log \"" ++ log.description ++ "\": " ++ e)
  | .ok logKey =>
    match cx.newSignatureVerifier logKey with
    | .error e => .error ("failed to build verifier log \"" ++ log.description ++ "\": " ++ e)
    | .ok verifier =>
      .ok { description := log.description
            client := lc
            mmd := log.maximumMergeDelay * 1000000000
            verifier := verifier
            publicKey := log.key
            lastSTH := none }

/-- `ctutil.NewLogInfo`: normalize the URL to an https scheme, build an
HTTP-backed client, then delegate to `newLogInfo`. -/
def NewLogInfo (cx : CtorExt) (log : Log) (hc : Unit) : Except String LogInfo :=
  let url := if List.isPrefixOf "https://".data log.url.data then log.url else "https://" ++ log.url
  match cx.clientNew url hc { publicKeyDER := log.key, userAgent := "ct-go-logclient" } with
  | .error e => .error ("failed to create client for log \"" ++ log.description ++ "\": " ++ e)
  | .ok lc => newLogInfo cx log lc

/-- `ctutil.NewLogInfoOverDNS`: require a DNS endpoint, build a
DNS-backed client, then delegate to `newLogInfo`. -/
def NewLogInfoOverDNS (cx : CtorExt) (log : Log) : Except String LogInfo :=
  if log.dnsAPIEndpoint = "" then
    .error ("no available DNS endpoint for log \"" ++ log.description ++ "\"")
  else
    match cx.dnsClientNew log.dnsAPIEndpoint { publicKeyDER := log.key, userAgent := "" } with
    | .error e => .error ("failed to create DNS client for log \"" ++ log.description ++ "\": " ++ e)
    | .ok dc => newLogInfo cx log dc

/-- `ctutil.NewLogInfoOverDNSWrapper`: the DNS factory with an inert
HTTP-client argument, interchangeable with `NewLogInfo`. -/
def NewLogInfoOverDNSWrapper (cx : CtorExt) (log : Log) (_hc : Unit) : Except String LogInfo :=
  NewLogInfoOverDNS cx log

/-- Lookup in the built registry, with Go map semantics: on duplicate
key hashes the entry inserted last wins. -/
def mapLookup (m : List (List Nat × LogInfo)) (k : List Nat) : Option LogInfo :=
  match m with
  | [] => none
  | p :: rest =>
    match mapLookup rest k with
    | some v => some v
    | none => if p.1 = k then some p.2 else none

/-- `ctutil.logInfoByKeyHash`: construct one `LogInfo` per log-list
entry via the supplied factory, keyed by the SHA-256 hash (the opaque
`sha` parameter) of the entry's DER public key; the first factory
failure aborts with that error and no map. The result list is in
iteration order (`mapLookup` applies the Go map's last-wins overwrite). -/
def logInfoByKeyHash (sha : List Nat → List Nat) (logs : List Log) (hc : Unit) (infoFactory : Log → Unit → Except String LogInfo) : Except String (List (List Nat × LogInfo)) :=
  match logs with
  | [] => .ok []
  | log :: rest =>
    match infoFactory log hc with
    | .error e => .error e
    | .ok li =>
      match logInfoByKeyHash sha rest hc infoFactory with
      | .error e => .error e
      | .ok m => .ok ((sha log.key, li) :: m)

/-- `ctutil.LogInfoByKeyHash`: the registry over the HTTP factory. -/
def LogInfoByKeyHash (cx : CtorExt) (sha : List Nat → List Nat) (logs : List Log) (hc : Unit) : Except String (List (List Nat × LogInfo)) :=
  logInfoByKeyHash sha logs hc (NewLogInfo cx)

/-- `ctutil.LogInfoByKeyHashOverDNS`: the registry over the DNS factory. -/
def LogInfoByKeyHashOverDNS (cx : CtorExt) (sha : List Nat → List Nat) (logs : List Log) (hc : Unit) : Except String (List (List Nat × LogInfo)) :=
  logInfoByKeyHash sha logs hc (NewLogInfoOverDNSWrapper cx)

/-- Heap of timestamped entries, for making the caller's view of a leaf
explicit: the caller holds a leaf whose entry lives at an index of the
heap. -/
abbrev EntryHeap := Nat → TimestampedEntry

/-- A leaf as held by the caller: header fields plus the heap index of
its timestamped entry. -/
structure LeafRef where
  version : Nat
  leafType : Nat
  entry : Nat

/-- Modelled from the spec: whether `ct.MerkleTreeLeaf` shares its
timestamped entry with the caller is decided by that type's declaration,
which is not among the repository files here; per the spec the timestamp
adjustment constructs "a local copy of the entry with the timestamp
field overridden, never mutating a value the caller still holds a
reference to", so dereferencing builds a local value and the operations
below leave the heap untouched. -/
def derefLeaf (h : EntryHeap) (l : LeafRef) : MerkleTreeLeaf :=
  { version := l.version, leafType := l.leafType, timestampedEntry := h l.entry }

/-- `VerifySCTSignature` at heap level: the result plus the heap the
caller observes after the call. -/
def LogInfo.VerifySCTSignatureH (li : LogInfo) (sct : SignedCertificateTimestamp) (h : EntryHeap) (l : LeafRef) : Option CTErr × EntryHeap :=
  (li.VerifySCTSignature sct (derefLeaf h l), h)

/-- `VerifyInclusionAt` at heap level: the outcome plus the heap the
caller observes after the call. -/
def LogInfo.VerifyInclusionAtH (li : LogInfo) (ext : Externals) (h : EntryHeap) (l : LeafRef) (timestamp treeSize : Nat) (rootHash : List Nat) : VerifyOutcome × EntryHeap :=
  (li.VerifyInclusionAt ext (derefLeaf h l) timestamp treeSize rootHash, h)

/-! Concrete sample values, used by witnesses and counterexamples. -/

def sampleEntry : TimestampedEntry :=
  { timestamp := 0, entryType := 0, entryData := [9], extensions := [] }

def sampleLeaf : MerkleTreeLeaf :=
  { version := 0, leafType := 0, timestampedEntry := sampleEntry }

def sampleSCT : SignedCertificateTimestamp :=
  { sctVersion := 0, logID := [8], timestamp := 42, extensions := [], signature := [7] }

def sampleSTH : SignedTreeHead :=
  { version := 0, treeSize := 10, timestamp := 1234, sha256RootHash := [1, 2, 3] }

def sampleHash : List Nat := [4, 5, 6]

def sampleRoot : List Nat := [1, 2, 3]

def sampleClient : CheckLogClient :=
  { getSTH := .ok sampleSTH
    getProofByHash := fun _ _ => .ok { leafIndex := 5, auditPath := [] } }

def sampleExt : Externals :=
  { leafHashForLeaf := fun _ => .ok sampleHash
    verifyInclusionProof := fun _ _ _ _ _ => .ok () }

def sampleLi : LogInfo :=
  { description := "Test Log", client := sampleClient, mmd := 0
    verifier := fun _ _ => .ok (), publicKey := [1], lastSTH := none }

def sampleLi2 : LogInfo := { sampleLi with lastSTH := some sampleSTH }

def cexClient : CheckLogClient :=
  { getSTH := .error "network down"
    getProofByHash := fun _ _ => .ok { leafIndex := 0, auditPath := [] } }

def cexLi : LogInfo := { sampleLi with client := cexClient }

def cex4Ext : Externals :=
  { leafHashForLeaf := fun _ => .error "x"
    verifyInclusionProof := fun _ _ _ _ _ => .ok () }

def cex4Li : LogInfo := { sampleLi with description := "Q" }

def cex4bLi : LogInfo := { sampleLi with verifier := fun _ _ => .error "bad sig" }

def sampleSha : List Nat → List Nat := fun k => 0 :: k

def sampleCx : CtorExt :=
  { clientNew := fun _ _ _ => .ok sampleClient
    dnsClientNew := fun _ _ => .ok sampleClient
    parsePKIXPublicKey := fun k => .ok { raw := k }
    newSignatureVerifier := fun _ => .ok fun _ _ => .ok () }

def sampleLog : Log :=
  { description := "Test Log", key := [1], url := "log.example.com/ct"
    dnsAPIEndpoint := "", maximumMergeDelay := 86400 }

/-! Helper lemmas shared by the claim theorems. -/

/-- VerifyInclusionAt never touches the cached tree head. -/
lemma verifyInclusionAt_lastSTH (li : LogInfo) (ext : Externals) (leaf : MerkleTreeLeaf) (ts n : Nat) (r : List Nat) :
    (li.VerifyInclusionAt ext leaf ts n r).lastSTH = li.lastSTH := by
  simp only [LogInfo.VerifyInclusionAt]
  split
  · rfl
  · split
    · rfl
    · split <;> rfl

/-- VerifyInclusionAt performs no tree-head fetch. -/
lemma verifyInclusionAt_sthFetches (li : LogInfo) (ext : Externals) (leaf : MerkleTreeLeaf) (ts n : Nat) (r : List Nat) :
    (li.VerifyInclusionAt ext leaf ts n r).sthFetches = 0 := by
  simp only [LogInfo.VerifyInclusionAt]
  split
  · rfl
  · split
    · rfl
    · split <;> rfl

/-- C1: VerifyInclusionAt first overwrites the local leaf's timestamp
with the supplied one, then derives the canonical leaf hash (stopping
with an error when the leaf cannot be encoded), then requests an
inclusion proof from the transport for (leafHash, treeSize) (stopping
with an error on a transport fault), then invokes the Merkle verifier
with (leafIndex, treeSize, auditPath, rootHash, leafHash) (stopping with
an error when the root does not recompute), and on success returns the
transport-reported leaf index; the recorded call trace shows the steps
in exactly this order, and no step after a failing one is executed. -/
theorem verifyInclusionAt_step_order (li : LogInfo) (ext : Externals) (leaf : MerkleTreeLeaf) (ts n : Nat) (r : List Nat) :
    (∀ e, ext.leafHashForLeaf (setLeafTimestamp leaf ts) = .error e →
      li.VerifyInclusionAt ext leaf ts n r =
        ⟨-1, some (.leafHashFailed e), li.lastSTH, [.leafHash (setLeafTimestamp leaf ts)]⟩) ∧
    (∀ lh e, ext.leafHashForLeaf (setLeafTimestamp leaf ts) = .ok lh →
      li.client.getProofByHash lh n = .error e →
      li.VerifyInclusionAt ext leaf ts n r =
        ⟨-1, some (.getProofFailed n e), li.lastSTH,
          [.leafHash (setLeafTimestamp leaf ts), .getProofByHash lh n]⟩) ∧
    (∀ lh rsp e, ext.leafHashForLeaf (setLeafTimestamp leaf ts) = .ok lh →
      li.client.getProofByHash lh n = .ok rsp →
      ext.verifyInclusionProof rsp.leafIndex (int64ofUint64 n) rsp.auditPath r lh = .error e →
      li.VerifyInclusionAt ext leaf ts n r =
        ⟨-1, some (.proofVerifyFailed n e), li.lastSTH,
          [.leafHash (setLeafTimestamp leaf ts), .getProofByHash lh n,
           .verifyProof rsp.leafIndex (int64ofUint64 n) rsp.auditPath r lh]⟩) ∧
    (∀ lh rsp, ext.leafHashForLeaf (setLeafTimestamp leaf ts) = .ok lh →
      li.client.getProofByHash lh n = .ok rsp →
      ext.verifyInclusionProof rsp.leafIndex (int64ofUint64 n) rsp.auditPath r lh = .ok () →
      li.VerifyInclusionAt ext leaf ts n r =
        ⟨rsp.leafIndex, none, li.lastSTH,
          [.leafHash (setLeafTimestamp leaf ts), .getProofByHash lh n,
           .verifyProof rsp.leafIndex (int64ofUint64 n) rsp.auditPath r lh]⟩) := by
  refine ⟨?_, ?_, ?_, ?_⟩ <;> intros <;> simp_all [LogInfo.VerifyInclusionAt]

/-- C1 witness: at concrete inputs where every step succeeds, the call
returns the transport-reported index 5 with the full three-step trace. -/
theorem verifyInclusionAt_step_order_witness :
    sampleLi.VerifyInclusionAt sampleExt sampleLeaf 7 10 sampleRoot =
      ⟨5, none, none,
        [.leafHash (setLeafTimestamp sampleLeaf 7), .getProofByHash sampleHash 10,
         .verifyProof 5 (int64ofUint64 10) [] sampleRoot sampleHash]⟩ :=
  (verifyInclusionAt_step_order sampleLi sampleExt sampleLeaf 7 10 sampleRoot).2.2.2
    sampleHash { leafIndex := 5, auditPath := [] } rfl rfl rfl

/-- With a non-nil cache, VerifyInclusionLatest is the delegated
VerifyInclusionAt call at the cached STH's size and root. -/
lemma latest_cache_some (li : LogInfo) (ext : Externals) (leaf : MerkleTreeLeaf) (ts : Nat) (sth : SignedTreeHead) (h : li.lastSTH = some sth) :
    li.VerifyInclusionLatest ext leaf ts =
      li.VerifyInclusionAt ext leaf ts sth.treeSize sth.sha256RootHash := by
  simp only [LogInfo.VerifyInclusionLatest, LogInfo.LastSTH, h]

/-- With a nil cache and a successful fetch, VerifyInclusionLatest is
the delegated call on the updated state, with the fetch and cache-write
events in front. -/
lemma latest_cache_none_ok (li : LogInfo) (ext : Externals) (leaf : MerkleTreeLeaf) (ts : Nat) (sth : SignedTreeHead) (h : li.lastSTH = none) (hg : li.client.getSTH = .ok sth) :
    li.VerifyInclusionLatest ext leaf ts =
      { (li.SetSTH (some sth)).VerifyInclusionAt ext leaf ts sth.treeSize sth.sha256RootHash with
        events := .getSTH :: .setSTH sth ::
          ((li.SetSTH (some sth)).VerifyInclusionAt ext leaf ts sth.treeSize sth.sha256RootHash).events } := by
  simp only [LogInfo.VerifyInclusionLatest, LogInfo.LastSTH, h, hg]

/-- With a nil cache and a failing fetch, VerifyInclusionLatest stops
with the wrapped transport error. -/
lemma latest_cache_none_err (li : LogInfo) (ext : Externals) (leaf : MerkleTreeLeaf) (ts : Nat) (e : String) (h : li.lastSTH = none) (hg : li.client.getSTH = .error e) :
    li.VerifyInclusionLatest ext leaf ts =
      ⟨-1, some (.getSTHFailed li.description e), li.lastSTH, [.getSTH]⟩ := by
  simp only [LogInfo.VerifyInclusionLatest, LogInfo.LastSTH, h, hg]

/-- With a failing fetch, VerifyInclusion stops with the wrapped
transport error. -/
lemma inclusion_fetch_err (li : LogInfo) (ext : Externals) (leaf : MerkleTreeLeaf) (ts : Nat) (e : String) (hg : li.client.getSTH = .error e) :
    li.VerifyInclusion ext leaf ts =
      ⟨-1, some (.getSTHFailed li.description e), li.lastSTH, [.getSTH]⟩ := by
  simp only [LogInfo.VerifyInclusion, hg]

/-- With a successful fetch, VerifyInclusion is the delegated call on
the updated state, with the fetch and cache-write events in front. -/
lemma inclusion_fetch_ok (li : LogInfo) (ext : Externals) (leaf : MerkleTreeLeaf) (ts : Nat) (sth : SignedTreeHead) (hg : li.client.getSTH = .ok sth) :
    li.VerifyInclusion ext leaf ts =
      { (li.SetSTH (some sth)).VerifyInclusionAt ext leaf ts sth.treeSize sth.sha256RootHash with
        events := .getSTH :: .setSTH sth ::
          ((li.SetSTH (some sth)).VerifyInclusionAt ext leaf ts sth.treeSize sth.sha256RootHash).events } := by
  simp only [LogInfo.VerifyInclusion, hg]

/-- Prepending the fetch and cache-write events adds exactly one
tree-head fetch to the count. -/
lemma sthFetches_cons2 (o : VerifyOutcome) (sth : SignedTreeHead) :
    VerifyOutcome.sthFetches { o with events := .getSTH :: .setSTH sth :: o.events } =
      o.sthFetches + 1 := by
  simp [VerifyOutcome.sthFetches, List.countP_cons, Event.isGetSTH]

/-- C2 (amended): VerifyInclusionLatest uses a non-nil cached STH
without any tree-head fetch; with a nil cache it performs exactly one
fetch and, on fetch success, stores the result in the cache before
delegating to VerifyInclusionAt with that STH's tree size and root hash;
and two successive calls with no intervening cache change perform at
most one fetch in total provided the cache is non-nil or the fetch
succeeds (after a failed fetch the cache stays nil and the second call
fetches again). -/
theorem verifyInclusionLatest_cache_policy (li : LogInfo) (ext : Externals) (leaf : MerkleTreeLeaf) (ts : Nat) :
    (∀ sth, li.lastSTH = some sth →
      li.VerifyInclusionLatest ext leaf ts =
        li.VerifyInclusionAt ext leaf ts sth.treeSize sth.sha256RootHash ∧
      (li.VerifyInclusionLatest ext leaf ts).sthFetches = 0) ∧
    (li.lastSTH = none →
      (li.VerifyInclusionLatest ext leaf ts).sthFetches = 1 ∧
      ∀ sth, li.client.getSTH = .ok sth →
        (li.VerifyInclusionLatest ext leaf ts).events =
          .getSTH :: .setSTH sth ::
            ((li.SetSTH (some sth)).VerifyInclusionAt ext leaf ts sth.treeSize sth.sha256RootHash).events ∧
        (li.VerifyInclusionLatest ext leaf ts).lastSTH = some sth ∧
        (li.VerifyInclusionLatest ext leaf ts).index =
          ((li.SetSTH (some sth)).VerifyInclusionAt ext leaf ts sth.treeSize sth.sha256RootHash).index ∧
        (li.VerifyInclusionLatest ext leaf ts).err =
          ((li.SetSTH (some sth)).VerifyInclusionAt ext leaf ts sth.treeSize sth.sha256RootHash).err) ∧
    ((li.lastSTH ≠ none ∨ (∃ sth, li.client.getSTH = .ok sth)) →
      (li.VerifyInclusionLatest ext leaf ts).sthFetches +
        ((afterCall li (li.VerifyInclusionLatest ext leaf ts)).VerifyInclusionLatest ext leaf ts).sthFetches ≤ 1) := by
  refine ⟨?_, ?_, ?_⟩
  · intro sth h
    have he := latest_cache_some li ext leaf ts sth h
    refine ⟨he, ?_⟩
    rw [he]
    exact verifyInclusionAt_sthFetches li ext leaf ts sth.treeSize sth.sha256RootHash
  · intro h
    constructor
    · cases hg : li.client.getSTH with
      | error e =>
        rw [latest_cache_none_err li ext leaf ts e h hg]
        rfl
      | ok sth =>
        rw [latest_cache_none_ok li ext leaf ts sth h hg, sthFetches_cons2,
          verifyInclusionAt_sthFetches]
    · intro sth hg
      rw [latest_cache_none_ok li ext leaf ts sth h hg]
      refine ⟨rfl, ?_, rfl, rfl⟩
      show ((li.SetSTH (some sth)).VerifyInclusionAt ext leaf ts sth.treeSize sth.sha256RootHash).lastSTH = some sth
      rw [verifyInclusionAt_lastSTH]
      rfl
  · intro h
    cases hc : li.lastSTH with
    | some s =>
      have he := latest_cache_some li ext leaf ts s hc
      have h1 : (li.VerifyInclusionLatest ext leaf ts).sthFetches = 0 := by
        rw [he]
        exact verifyInclusionAt_sthFetches li ext leaf ts s.treeSize s.sha256RootHash
      have h2 : (afterCall li (li.VerifyInclusionLatest ext leaf ts)).lastSTH = some s := by
        show (li.VerifyInclusionLatest ext leaf ts).lastSTH = some s
        rw [he, verifyInclusionAt_lastSTH, hc]
      have he2 := latest_cache_some (afterCall li (li.VerifyInclusionLatest ext leaf ts)) ext leaf ts s h2
      have h3 : ((afterCall li (li.VerifyInclusionLatest ext leaf ts)).VerifyInclusionLatest ext leaf ts).sthFetches = 0 := by
        rw [he2]
        exact verifyInclusionAt_sthFetches _ ext leaf ts s.treeSize s.sha256RootHash
      omega
    | none =>
      rcases h with h | ⟨sth, hg⟩
      · exact absurd hc h
      · have he := latest_cache_none_ok li ext leaf ts sth hc hg
        have h1 : (li.VerifyInclusionLatest ext leaf ts).sthFetches = 1 := by
          rw [he, sthFetches_cons2, verifyInclusionAt_sthFetches]
        have h2 : (afterCall li (li.VerifyInclusionLatest ext leaf ts)).lastSTH = some sth := by
          show (li.VerifyInclusionLatest ext leaf ts).lastSTH = some sth
          rw [he]
          show ((li.SetSTH (some sth)).VerifyInclusionAt ext leaf ts sth.treeSize sth.sha256RootHash).lastSTH = some sth
          rw [verifyInclusionAt_lastSTH]
          rfl
        have he2 := latest_cache_some (afterCall li (li.VerifyInclusionLatest ext leaf ts)) ext leaf ts sth h2
        have h3 : ((afterCall li (li.VerifyInclusionLatest ext leaf ts)).VerifyInclusionLatest ext leaf ts).sthFetches = 0 := by
          rw [he2]
          exact verifyInclusionAt_sthFetches _ ext leaf ts sth.treeSize sth.sha256RootHash
        omega

/-- C2 witness: with the sample cached STH present, the call is exactly
the delegated VerifyInclusionAt call at the cached size and root. -/
theorem verifyInclusionLatest_cache_policy_witness :
    sampleLi2.VerifyInclusionLatest sampleExt sampleLeaf 7 =
      sampleLi2.VerifyInclusionAt sampleExt sampleLeaf 7 sampleSTH.treeSize sampleSTH.sha256RootHash :=
  ((verifyInclusionLatest_cache_policy sampleLi2 sampleExt sampleLeaf 7).1 sampleSTH rfl).1

/-- C2 counterexample: with a nil cache and a failing transport, the
first call's failed fetch leaves the cache unchanged (nil), yet two
successive calls perform two tree-head fetches — more than the claimed
"at most one in total". -/
theorem verifyInclusionLatest_double_fetch_cex :
    (cexLi.VerifyInclusionLatest sampleExt sampleLeaf 7).lastSTH = cexLi.lastSTH ∧
    ¬ ((cexLi.VerifyInclusionLatest sampleExt sampleLeaf 7).sthFetches +
       ((afterCall cexLi (cexLi.VerifyInclusionLatest sampleExt sampleLeaf 7)).VerifyInclusionLatest
          sampleExt sampleLeaf 7).sthFetches ≤ 1) := by
  decide

/-- C3: VerifyInclusion performs exactly one tree-head fetch per call
regardless of the cache state; on fetch failure it returns the wrapped
error; on fetch success it unconditionally replaces the cached STH with
the fetched one (whatever the cache previously held, larger or smaller)
before delegating to VerifyInclusionAt with the fetched STH's tree size
and root hash. -/
theorem verifyInclusion_always_fetches_once (li : LogInfo) (ext : Externals) (leaf : MerkleTreeLeaf) (ts : Nat) :
    (li.VerifyInclusion ext leaf ts).sthFetches = 1 ∧
    (∀ e, li.client.getSTH = .error e →
      li.VerifyInclusion ext leaf ts =
        ⟨-1, some (.getSTHFailed li.description e), li.lastSTH, [.getSTH]⟩) ∧
    (∀ sth, li.client.getSTH = .ok sth →
      (li.VerifyInclusion ext leaf ts).lastSTH = some sth ∧
      (li.VerifyInclusion ext leaf ts).events =
        .getSTH :: .setSTH sth ::
          ((li.SetSTH (some sth)).VerifyInclusionAt ext leaf ts sth.treeSize sth.sha256RootHash).events ∧
      (li.VerifyInclusion ext leaf ts).index =
        ((li.SetSTH (some sth)).VerifyInclusionAt ext leaf ts sth.treeSize sth.sha256RootHash).index ∧
      (li.VerifyInclusion ext leaf ts).err =
        ((li.SetSTH (some sth)).VerifyInclusionAt ext leaf ts sth.treeSize sth.sha256RootHash).err) := by
  refine ⟨?_, ?_, ?_⟩
  · cases hg : li.client.getSTH with
    | error e =>
      rw [inclusion_fetch_err li ext leaf ts e hg]
      rfl
    | ok sth =>
      rw [inclusion_fetch_ok li ext leaf ts sth hg, sthFetches_cons2,
        verifyInclusionAt_sthFetches]
  · intro e hg
    exact inclusion_fetch_err li ext leaf ts e hg
  · intro sth hg
    rw [inclusion_fetch_ok li ext leaf ts sth hg]
    refine ⟨?_, rfl, rfl, rfl⟩
    show ((li.SetSTH (some sth)).VerifyInclusionAt ext leaf ts sth.treeSize sth.sha256RootHash).lastSTH = some sth
    rw [verifyInclusionAt_lastSTH]
    rfl

/-- C3 witness: the sample fetch succeeds and the cache afterwards holds
the fetched STH. -/
theorem verifyInclusion_always_fetches_once_witness :
    (sampleLi.VerifyInclusion sampleExt sampleLeaf 7).lastSTH = some sampleSTH :=
  ((verifyInclusion_always_fetches_once sampleLi sampleExt sampleLeaf 7).2.2 sampleSTH rfl).1

/-- C6: through VerifyInclusionLatest, an already-set cached STH is
never replaced: starting from a non-nil cache, the cache after the call
is identical to the cache before it. -/
theorem verifyInclusionLatest_preserves_cache (li : LogInfo) (ext : Externals) (leaf : MerkleTreeLeaf) (ts : Nat) (sth : SignedTreeHead) (h : li.lastSTH = some sth) :
    (li.VerifyInclusionLatest ext leaf ts).lastSTH = li.lastSTH := by
  rw [latest_cache_some li ext leaf ts sth h, verifyInclusionAt_lastSTH]

/-- C6 witness: at the sample state with a cached STH, the cache is
unchanged by the call. -/
theorem verifyInclusionLatest_preserves_cache_witness :
    (sampleLi2.VerifyInclusionLatest sampleExt sampleLeaf 7).lastSTH = sampleLi2.lastSTH :=
  verifyInclusionLatest_preserves_cache sampleLi2 sampleExt sampleLeaf 7 sampleSTH rfl

/-- C7: when the transport's tree-head fetch fails, VerifyInclusion
returns an error and leaves the cache exactly in its prior state, and so
does VerifyInclusionLatest when it fetches (nil cache); a failed fetch
never updates the cache, partially or fully. -/
theorem failed_fetch_leaves_cache (li : LogInfo) (ext : Externals) (leaf : MerkleTreeLeaf) (ts : Nat) (e : String) (hg : li.client.getSTH = .error e) :
    ((li.VerifyInclusion ext leaf ts).lastSTH = li.lastSTH ∧
     (li.VerifyInclusion ext leaf ts).err ≠ none) ∧
    (li.lastSTH = none →
      (li.VerifyInclusionLatest ext leaf ts).lastSTH = li.lastSTH ∧
      (li.VerifyInclusionLatest ext leaf ts).err ≠ none) := by
  constructor
  · rw [inclusion_fetch_err li ext leaf ts e hg]
    exact ⟨rfl, by simp⟩
  · intro h
    rw [latest_cache_none_err li ext leaf ts e h hg]
    exact ⟨rfl, by simp⟩

/-- C7 witness: at the failing-transport sample, VerifyInclusion leaves
the cache in its prior state. -/
theorem failed_fetch_leaves_cache_witness :
    (cexLi.VerifyInclusion sampleExt sampleLeaf 7).lastSTH = cexLi.lastSTH :=
  ((failed_fetch_leaves_cache cexLi sampleExt sampleLeaf 7 "network down" rfl).1).1

/-- A string occurs in a message it is spliced into. -/
lemma mentionsLog_embed (d m : String) (a b : List Char) (h : m.data = a ++ d.data ++ b) :
    mentionsLog d m :=
  ⟨a, b, h.symm⟩

/-- newLogInfo's error messages carry the log's description. -/
lemma newLogInfo_error_mentions (cx : CtorExt) (log : Log) (lc : CheckLogClient) (e : String) (h : newLogInfo cx log lc = .error e) :
    mentionsLog log.description e := by
  cases hp : cx.parsePKIXPublicKey log.key with
  | error e1 =>
    simp only [newLogInfo, hp, Except.error.injEq] at h
    subst h
    exact mentionsLog_embed _ _ "failed to parse public key data for log \"".data
      ("\": ".data ++ e1.data) (by simp [String.data_append])
  | ok k =>
    cases hv : cx.newSignatureVerifier k with
    | error e2 =>
      simp only [newLogInfo, hp, hv, Except.error.injEq] at h
      subst h
      exact mentionsLog_embed _ _ "failed to build verifier log \"".data
        ("\": ".data ++ e2.data) (by simp [String.data_append])
    | ok v =>
      simp only [newLogInfo, hp, hv] at h
      exact absurd h (by simp)

/-- NewLogInfo's error messages carry the log's description. -/
lemma NewLogInfo_error_mentions (cx : CtorExt) (log : Log) (hc : Unit) (e : String) (h : NewLogInfo cx log hc = .error e) :
    mentionsLog log.description e := by
  cases hcn : cx.clientNew (if List.isPrefixOf "https://".data log.url.data then log.url else "https://" ++ log.url) hc { publicKeyDER := log.key, userAgent := "ct-go-logclient" } with
  | error e1 =>
    simp only [NewLogInfo, hcn, Except.error.injEq] at h
    subst h
    exact mentionsLog_embed _ _ "failed to create client for log \"".data
      ("\": ".data ++ e1.data) (by simp [String.data_append])
  | ok lc =>
    simp only [NewLogInfo, hcn] at h
    exact newLogInfo_error_mentions cx log lc e h

/-- NewLogInfoOverDNS's error messages carry the log's description. -/
lemma NewLogInfoOverDNS_error_mentions (cx : CtorExt) (log : Log) (e : String) (h : NewLogInfoOverDNS cx log = .error e) :
    mentionsLog log.description e := by
  by_cases hd : log.dnsAPIEndpoint = ""
  · simp only [NewLogInfoOverDNS, if_pos hd, Except.error.injEq] at h
    subst h
    exact mentionsLog_embed _ _ "no available DNS endpoint for log \"".data
      "\"".data (by simp [String.data_append])
  · cases hcn : cx.dnsClientNew log.dnsAPIEndpoint { publicKeyDER := log.key, userAgent := "" } with
    | error e1 =>
      simp only [NewLogInfoOverDNS, if_neg hd, hcn, Except.error.injEq] at h
      subst h
      exact mentionsLog_embed _ _ "failed to create DNS client for log \"".data
        ("\": ".data ++ e1.data) (by simp [String.data_append])
    | ok dc =>
      simp only [NewLogInfoOverDNS, if_neg hd, hcn] at h
      exact newLogInfo_error_mentions cx log dc e h

/-- C4 counterexample: at a concrete state (log description "Q") whose
leaf cannot be encoded, VerifyInclusionAt returns the error
"failed to create leaf hash: x", which does not carry the log's
description — refuting the claim that every error of the verification
operations does. -/
theorem verifyInclusionAt_error_omits_description :
    (cex4Li.VerifyInclusionAt cex4Ext sampleLeaf 7 10 sampleRoot).err =
      some (CTErr.leafHashFailed "x") ∧
    ¬ mentionsLog cex4Li.description (CTErr.leafHashFailed "x").message := by
  exact ⟨rfl, by decide⟩

/-- C4 (amended): the log's description is carried by the errors of
VerifySCTSignature, by the tree-head-fetch errors of VerifyInclusion and
VerifyInclusionLatest, and by every registry-construction error; the
errors produced inside VerifyInclusionAt (leaf encoding, proof fetch,
proof verification) carry operation context but not the description. -/
theorem description_attached_errors (li : LogInfo) (ext : Externals) (sct : SignedCertificateTimestamp) (leaf : MerkleTreeLeaf) (ts : Nat) (cx : CtorExt) (log : Log) (lc : CheckLogClient) (hc : Unit) :
    (∀ e, li.VerifySCTSignature sct leaf = some e → mentionsLog li.description e.message) ∧
    (∀ c e, li.client.getSTH = .error c →
      (li.VerifyInclusion ext leaf ts).err = some e → mentionsLog li.description e.message) ∧
    (∀ c e, li.lastSTH = none → li.client.getSTH = .error c →
      (li.VerifyInclusionLatest ext leaf ts).err = some e → mentionsLog li.description e.message) ∧
    (∀ e, newLogInfo cx log lc = .error e → mentionsLog log.description e) ∧
    (∀ e, NewLogInfo cx log hc = .error e → mentionsLog log.description e) ∧
    (∀ e, NewLogInfoOverDNSWrapper cx log hc = .error e → mentionsLog log.description e) := by
  refine ⟨?_, ?_, ?_, ?_, ?_, ?_⟩
  · intro e h
    cases hv : li.verifier sct { leaf := setLeafTimestamp leaf sct.timestamp } with
    | error c =>
      simp only [LogInfo.VerifySCTSignature, hv, Option.some.injEq] at h
      subst h
      exact mentionsLog_embed _ _ "failed to verify SCT signature from log \"".data
        ("\": ".data ++ c.data) (by simp [CTErr.message, String.data_append])
    | ok u =>
      simp only [LogInfo.VerifySCTSignature, hv] at h
      exact absurd h (by simp)
  · intro c e hg h
    rw [inclusion_fetch_err li ext leaf ts c hg] at h
    injection h with h
    subst h
    exact mentionsLog_embed _ _ "failed to get current STH for \"".data
      ("\" log: ".data ++ c.data) (by simp [CTErr.message, String.data_append])
  · intro c e hn hg h
    rw [latest_cache_none_err li ext leaf ts c hn hg] at h
    injection h with h
    subst h
    exact mentionsLog_embed _ _ "failed to get current STH for \"".data
      ("\" log: ".data ++ c.data) (by simp [CTErr.message, String.data_append])
  · intro e h
    exact newLogInfo_error_mentions cx log lc e h
  · intro e h
    exact NewLogInfo_error_mentions cx log hc e h
  · intro e h
    exact NewLogInfoOverDNS_error_mentions cx log e h

/-- C4 witness: the SCT-signature error at a concrete failing verifier
carries the log's description. -/
theorem description_attached_errors_witness :
    mentionsLog cex4bLi.description (CTErr.sctSigFailed cex4bLi.description "bad sig").message :=
  (description_attached_errors cex4bLi sampleExt sampleSCT sampleLeaf 7 sampleCx sampleLog sampleClient ()).1
    (CTErr.sctSigFailed cex4bLi.description "bad sig") rfl

/-- C5 (spec-modelled): the timestamp overwrite in VerifySCTSignature
and VerifyInclusionAt happens on a local copy of the caller's entry:
after either call the caller's heap — and hence every field of the leaf
the caller holds, including the timestamp of its timestamped entry — is
unchanged. -/
theorem timestamp_override_is_local (li : LogInfo) (ext : Externals) (sct : SignedCertificateTimestamp) (h : EntryHeap) (l : LeafRef) (ts n : Nat) (r : List Nat) :
    (li.VerifySCTSignatureH sct h l).2 = h ∧
    (li.VerifyInclusionAtH ext h l ts n r).2 = h ∧
    derefLeaf (li.VerifySCTSignatureH sct h l).2 l = derefLeaf h l ∧
    derefLeaf (li.VerifyInclusionAtH ext h l ts n r).2 l = derefLeaf h l :=
  ⟨rfl, rfl, rfl, rfl⟩

/-- A factory failure on entry l, after a prefix of successful entries,
aborts the whole batch with that failure's error. -/
lemma logInfoByKeyHash_error (sha : List Nat → List Nat) (hc : Unit) (f : Log → Unit → Except String LogInfo) (l : Log) (suf : List Log) (e : String) (hl : f l hc = .error e) :
    ∀ pre : List Log, (∀ p ∈ pre, ∃ li, f p hc = .ok li) →
      logInfoByKeyHash sha (pre ++ l :: suf) hc f = .error e := by
  intro pre
  induction pre with
  | nil =>
    intro _
    simp [logInfoByKeyHash, hl]
  | cons p rest ih =>
    intro hpre
    obtain ⟨li, hp⟩ := hpre p (by simp)
    have ih' := ih (fun q hq => hpre q (by simp [hq]))
    simp [logInfoByKeyHash, hp, ih']

/-- A key just inserted is found. -/
lemma mapLookup_cons_self (m : List (List Nat × LogInfo)) (k : List Nat) (li : LogInfo) :
    mapLookup ((k, li) :: m) k ≠ none := by
  simp only [mapLookup]
  cases mapLookup m k <;> simp

/-- A key found before an insertion is still found after it. -/
lemma mapLookup_cons_mono (m : List (List Nat × LogInfo)) (k k' : List Nat) (li : LogInfo) (h : mapLookup m k ≠ none) :
    mapLookup ((k', li) :: m) k ≠ none := by
  simp only [mapLookup]
  cases hm : mapLookup m k with
  | some v => simp
  | none => exact absurd hm h

/-- When every entry constructs, the batch returns a map in which every
entry's key hash is present. -/
lemma logInfoByKeyHash_ok (sha : List Nat → List Nat) (hc : Unit) (f : Log → Unit → Except String LogInfo) :
    ∀ logs : List Log, (∀ p ∈ logs, ∃ li, f p hc = .ok li) →
      ∃ m, logInfoByKeyHash sha logs hc f = .ok m ∧
        ∀ p ∈ logs, mapLookup m (sha p.key) ≠ none := by
  intro logs
  induction logs with
  | nil =>
    intro _
    exact ⟨[], rfl, by simp⟩
  | cons log rest ih =>
    intro hall
    obtain ⟨li, hl⟩ := hall log (by simp)
    obtain ⟨m, hm, hcov⟩ := ih (fun q hq => hall q (by simp [hq]))
    refine ⟨(sha log.key, li) :: m, by simp [logInfoByKeyHash, hl, hm], ?_⟩
    intro p hp
    rcases List.mem_cons.mp hp with h | h
    · subst h
      exact mapLookup_cons_self m (sha p.key) li
    · exact mapLookup_cons_mono m (sha p.key) (sha log.key) li (hcov p h)

/-- C8: registry construction is all-or-nothing: the first entry whose
factory fails aborts the batch with that entry's error and no map at
all, and the errors of both concrete factories (HTTP and DNS) name the
offending log's description; when every entry constructs, the returned
map holds one LogInfo per entry, reachable under the SHA-256 hash of
that entry's DER public key. -/
theorem logInfoByKeyHash_all_or_nothing (sha : List Nat → List Nat) (hc : Unit) (f : Log → Unit → Except String LogInfo) (pre suf : List Log) (l : Log) (e : String) (cx : CtorExt) :
    ((∀ p ∈ pre, ∃ li, f p hc = .ok li) → f l hc = .error e →
      logInfoByKeyHash sha (pre ++ l :: suf) hc f = .error e) ∧
    (∀ logs : List Log, (∀ p ∈ logs, ∃ li, f p hc = .ok li) →
      ∃ m, logInfoByKeyHash sha logs hc f = .ok m ∧
        ∀ p ∈ logs, mapLookup m (sha p.key) ≠ none) ∧
    (∀ e2, NewLogInfo cx l hc = .error e2 → mentionsLog l.description e2) ∧
    (∀ e2, NewLogInfoOverDNSWrapper cx l hc = .error e2 → mentionsLog l.description e2) := by
  refine ⟨?_, ?_, ?_, ?_⟩
  · intro hpre hl
    exact logInfoByKeyHash_error sha hc f l suf e hl pre hpre
  · exact logInfoByKeyHash_ok sha hc f
  · intro e2 h
    exact NewLogInfo_error_mentions cx l hc e2 h
  · intro e2 h
    exact NewLogInfoOverDNS_error_mentions cx l e2 h

/-- C8 witness: a one-entry batch whose factory succeeds yields a map
containing that entry under its key hash. -/
theorem logInfoByKeyHash_all_or_nothing_witness :
    ∃ m, logInfoByKeyHash sampleSha [sampleLog] () (fun _ _ => Except.ok sampleLi) = .ok m ∧
      ∀ p ∈ [sampleLog], mapLookup m (sampleSha p.key) ≠ none :=
  (logInfoByKeyHash_all_or_nothing sampleSha () (fun _ _ => Except.ok sampleLi) [] [] sampleLog "" sampleCx).2.1
    [sampleLog] (fun _ _ => ⟨sampleLi, rfl⟩)

/-- VerifyInclusionAt returns -1 exactly with an error, and otherwise
the index of an inclusion-proof response it requested. -/
lemma verifyInclusionAt_err_index (li : LogInfo) (ext : Externals) (leaf : MerkleTreeLeaf) (ts n : Nat) (r : List Nat) :
    ((li.VerifyInclusionAt ext leaf ts n r).err ≠ none →
      (li.VerifyInclusionAt ext leaf ts n r).index = -1) ∧
    ((li.VerifyInclusionAt ext leaf ts n r).err = none →
      reportsTransportIndex li (li.VerifyInclusionAt ext leaf ts n r)) := by
  cases h1 : ext.leafHashForLeaf (setLeafTimestamp leaf ts) with
  | error e =>
    have he : li.VerifyInclusionAt ext leaf ts n r =
        ⟨-1, some (.leafHashFailed e), li.lastSTH, [.leafHash (setLeafTimestamp leaf ts)]⟩ := by
      simp only [LogInfo.VerifyInclusionAt, h1]
    rw [he]
    exact ⟨fun _ => rfl, fun h => absurd h (by simp)⟩
  | ok lh =>
    cases h2 : li.client.getProofByHash lh n with
    | error e =>
      have he : li.VerifyInclusionAt ext leaf ts n r =
          ⟨-1, some (.getProofFailed n e), li.lastSTH,
           [.leafHash (setLeafTimestamp leaf ts), .getProofByHash lh n]⟩ := by
        simp only [LogInfo.VerifyInclusionAt, h1, h2]
      rw [he]
      exact ⟨fun _ => rfl, fun h => absurd h (by simp)⟩
    | ok rsp =>
      cases h3 : ext.verifyInclusionProof rsp.leafIndex (int64ofUint64 n) rsp.auditPath r lh with
      | error e =>
        have he : li.VerifyInclusionAt ext leaf ts n r =
            ⟨-1, some (.proofVerifyFailed n e), li.lastSTH,
             [.leafHash (setLeafTimestamp leaf ts), .getProofByHash lh n,
              .verifyProof rsp.leafIndex (int64ofUint64 n) rsp.auditPath r lh]⟩ := by
          simp only [LogInfo.VerifyInclusionAt, h1, h2, h3]
        rw [he]
        exact ⟨fun _ => rfl, fun h => absurd h (by simp)⟩
      | ok u =>
        have he : li.VerifyInclusionAt ext leaf ts n r =
            ⟨rsp.leafIndex, none, li.lastSTH,
             [.leafHash (setLeafTimestamp leaf ts), .getProofByHash lh n,
              .verifyProof rsp.leafIndex (int64ofUint64 n) rsp.auditPath r lh]⟩ := by
          simp only [LogInfo.VerifyInclusionAt, h1, h2, h3]
        rw [he]
        refine ⟨fun hne => absurd rfl hne, fun _ => ⟨lh, n, rsp, by simp, h2, rfl⟩⟩

/-- Prefixing events and updating only the cache view preserves the
transport-index relation. -/
lemma reports_lift (li li' : LogInfo) (o : VerifyOutcome) (a b : Event) (hcl : li'.client = li.client) (h : reportsTransportIndex li' o) :
    reportsTransportIndex li { o with events := a :: b :: o.events } := by
  obtain ⟨lh, n, rsp, hm, hp, hi⟩ := h
  exact ⟨lh, n, rsp, by simp [hm], by rw [← hcl]; exact hp, hi⟩

/-- C10: for each of VerifyInclusionAt, VerifyInclusionLatest and
VerifyInclusion, a non-nil returned error comes with leaf index exactly
-1, and a nil error comes with the leaf index reported by the
transport's inclusion-proof response that the call itself requested. -/
theorem negative_index_iff_error (li : LogInfo) (ext : Externals) (leaf : MerkleTreeLeaf) (ts n : Nat) (r : List Nat) :
    (((li.VerifyInclusionAt ext leaf ts n r).err ≠ none →
        (li.VerifyInclusionAt ext leaf ts n r).index = -1) ∧
     ((li.VerifyInclusionAt ext leaf ts n r).err = none →
        reportsTransportIndex li (li.VerifyInclusionAt ext leaf ts n r))) ∧
    (((li.VerifyInclusionLatest ext leaf ts).err ≠ none →
        (li.VerifyInclusionLatest ext leaf ts).index = -1) ∧
     ((li.VerifyInclusionLatest ext leaf ts).err = none →
        reportsTransportIndex li (li.VerifyInclusionLatest ext leaf ts))) ∧
    (((li.VerifyInclusion ext leaf ts).err ≠ none →
        (li.VerifyInclusion ext leaf ts).index = -1) ∧
     ((li.VerifyInclusion ext leaf ts).err = none →
        reportsTransportIndex li (li.VerifyInclusion ext leaf ts))) := by
  refine ⟨verifyInclusionAt_err_index li ext leaf ts n r, ?_, ?_⟩
  · cases hc : li.lastSTH with
    | some s =>
      rw [latest_cache_some li ext leaf ts s hc]
      exact verifyInclusionAt_err_index li ext leaf ts s.treeSize s.sha256RootHash
    | none =>
      cases hg : li.client.getSTH with
      | error e =>
        rw [latest_cache_none_err li ext leaf ts e hc hg]
        exact ⟨fun _ => rfl, fun h => absurd h (by simp)⟩
      | ok sth =>
        rw [latest_cache_none_ok li ext leaf ts sth hc hg]
        have hat := verifyInclusionAt_err_index (li.SetSTH (some sth)) ext leaf ts sth.treeSize sth.sha256RootHash
        exact ⟨fun h => hat.1 h, fun h => reports_lift li (li.SetSTH (some sth)) _ .getSTH (.setSTH sth) rfl (hat.2 h)⟩
  · cases hg : li.client.getSTH with
    | error e =>
      rw [inclusion_fetch_err li ext leaf ts e hg]
      exact ⟨fun _ => rfl, fun h => absurd h (by simp)⟩
    | ok sth =>
      rw [inclusion_fetch_ok li ext leaf ts sth hg]
      have hat := verifyInclusionAt_err_index (li.SetSTH (some sth)) ext leaf ts sth.treeSize sth.sha256RootHash
      exact ⟨fun h => hat.1 h, fun h => reports_lift li (li.SetSTH (some sth)) _ .getSTH (.setSTH sth) rfl (hat.2 h)⟩

/-- C10 witness: the successful sample VerifyInclusion call returns a
transport-reported index. -/
theorem negative_index_iff_error_witness :
    reportsTransportIndex sampleLi (sampleLi.VerifyInclusion sampleExt sampleLeaf 7) :=
  (negative_index_iff_error sampleLi sampleExt sampleLeaf 7 10 sampleRoot).2.2.2 rfl
